import Mathlib

/-!
Verification development for the fragrance-scout service
(`fragrance_scout.py`): a Reddit feed monitor that fetches posts,
filters them by flair, deduplicates against a persisted ledger,
classifies them with an LLM, and stores accepted posts.

The Python source is shallowly embedded below: dictionaries become
association lists (insertion-ordered, as in CPython), JSON values an
inductive type, network calls oracle parameters, and the per-post
processing a pure state-transition function that also emits a trace of
the externally visible effects in program order.
-/

namespace FragranceScout

mutual

/-- JSON values, as produced by `json.loads`.  Object fields are kept in
insertion order; duplicate keys are resolved at parse time as CPython's
dict does.  Numbers keep their lexeme (the program never uses a numeric
value beyond truthiness). -/
inductive Json where
  | null : Json
  | bool (b : Bool) : Json
  | str (s : String) : Json
  | num (lexeme : String) : Json
  | arr (items : JsonArr) : Json
  | obj (fields : JsonObj) : Json
deriving DecidableEq

/-- A JSON array's elements. -/
inductive JsonArr where
  | nil : JsonArr
  | cons (hd : Json) (tl : JsonArr) : JsonArr
deriving DecidableEq

/-- A JSON object's fields, in insertion order. -/
inductive JsonObj where
  | nil : JsonObj
  | cons (key : String) (val : Json) (tl : JsonObj) : JsonObj
deriving DecidableEq

end

/-- Lookup of the first binding of a key in a JSON object. -/
def JsonObj.find? : JsonObj → String → Option Json
  | .nil, _ => none
  | .cons key val tl, k => if key == k then some val else tl.find? k

/-- `d[k] = v` on a Python dict: update in place if the key exists,
else append the binding at the end (used to resolve duplicate keys at
parse time the way CPython's dict does). -/
def JsonObj.set : JsonObj → String → Json → JsonObj
  | .nil, k, v => .cons k v .nil
  | .cons key val tl, k, v =>
    if key == k then .cons key v tl else .cons key val (tl.set k v)

/-- Python truthiness of a JSON-decoded value (`if x:`).  A numeric
lexeme is falsy when its mantissa digits are all zero (float underflow
of tiny nonzero literals is not modelled; the program never branches on
numeric truthiness). -/
def pyTruthy : Json → Bool
  | .null => false
  | .bool b => b
  | .str s => s != ""
  | .num lexeme =>
    (lexeme.toList.takeWhile (fun c => !(c == 'e' || c == 'E'))).any
      (fun c => decide ('1' ≤ c) && decide (c ≤ '9'))
  | .arr .nil => false
  | .arr (.cons _ _) => true
  | .obj .nil => false
  | .obj (.cons _ _ _) => true

/-- `d.get(k, dflt)` on a JSON object. -/
def pyGet (fields : JsonObj) (k : String) (dflt : Json) : Json :=
  (fields.find? k).getD dflt

/-- `self.sent_posts[post_id] = value` on the tracking dict, modelled as
an insertion-ordered association list with unique keys. -/
def dictSet (d : List (String × Json)) (k : String) (v : Json) : List (String × Json) :=
  if d.any (fun kv => kv.1 == k) then
    d.map (fun kv => if kv.1 == k then (k, v) else kv)
  else d ++ [(k, v)]

/-- Sort key used by `_save_tracking`:
`x[1] if isinstance(x[1], str) else ""`. -/
def sortKey : Json → String
  | .str s => s
  | _ => ""

/-- The eviction step of `_save_tracking` (fragrance_scout.py lines
156-159): if the ledger holds more than 1000 entries, sort them by
stored timestamp (Python's stable ascending `sorted`) and keep the last
1000 (`sorted_posts[-1000:]`). -/
def evictTracking (d : List (String × Json)) : List (String × Json) :=
  if d.length > 1000 then
    let sortedPosts := d.mergeSort (fun a b => sortKey a.2 ≤ sortKey b.2)
    sortedPosts.drop (sortedPosts.length - 1000)
  else d

/-! ### String scanning helpers used by the sanitization pipeline -/

/-- Index of the first occurrence of `pat` as a contiguous sublist of
`s`, if any. -/
def findSub (pat : List Char) : List Char → Option Nat
  | [] => if pat.isPrefixOf ([] : List Char) then some 0 else none
  | c :: t =>
    if pat.isPrefixOf (c :: t) then some 0 else (findSub pat t).map (· + 1)

/-- Index of the last occurrence of `pat` in `s` (fuel-driven scan). -/
def lastFindSubAux (pat : List Char) : Nat → List Char → Option Nat
  | 0, _ => none
  | fuel + 1, s =>
    match findSub pat s with
    | none => none
    | some i =>
      match lastFindSubAux pat fuel (s.drop (i + 1)) with
      | none => some i
      | some j => some (i + 1 + j)

/-- Index of the last occurrence of `pat` in `s`, if any. -/
def lastFindSub (pat s : List Char) : Option Nat :=
  lastFindSubAux pat (s.length + 1) s

/-- Python `str.strip()` whitespace set. -/
def isPySpace (c : Char) : Bool :=
  c == ' ' || c == '\t' || c == '\n' || c == '\r' || c == '\x0b' || c == '\x0c'

/-- Python `str.strip()`: drop leading and trailing whitespace. -/
def pyStrip (s : List Char) : List Char :=
  ((s.dropWhile isPySpace).reverse.dropWhile isPySpace).reverse

/-- The pattern of a reasoning-section opener. -/
def thinkOpenPat : List Char := "<think>".toList

/-- The pattern of a reasoning-section closer. -/
def thinkClosePat : List Char := "</think>".toList

/-- `re.sub(r'<think>.*?</think>', '', msg, flags=re.DOTALL)`
(fragrance_scout.py line 479): repeatedly remove the leftmost
non-greedy reasoning section. -/
def removeThinkAux : Nat → List Char → List Char
  | 0, s => s
  | fuel + 1, s =>
    match findSub thinkOpenPat s with
    | none => s
    | some i =>
      let rest := s.drop (i + 7)
      match findSub thinkClosePat rest with
      | none => s
      | some j => s.take i ++ removeThinkAux fuel (rest.drop (j + 8))

/-- Strip all delimited reasoning sections from the model text. -/
def removeThink (s : List Char) : List Char :=
  removeThinkAux (s.length + 1) s

/-- A markdown code-fence marker. -/
def fencePat : List Char := "```".toList

/-- The code-fence stripping stage (fragrance_scout.py lines 482-484):
if the message starts with a fence, drop the first line
(`split("\n", 1)[1]`, an IndexError — hence `none` — when there is no
newline), cut at the last fence marker (`rsplit("\x60\x60\x60", 1)[0]`)
and strip. -/
def fenceStage (m : List Char) : Option (List Char) :=
  if fencePat.isPrefixOf m then
    match findSub ['\n'] m with
    | none => none
    | some i =>
      let afterNl := m.drop (i + 1)
      let beforeTicks :=
        match lastFindSub fencePat afterNl with
        | none => afterNl
        | some j => afterNl.take j
      some (pyStrip beforeTicks)
  else some m

/-- Index of the last occurrence of a character: the first occurrence
in the reversed list. -/
def lastIdxOfChar (a : Char) (s : List Char) : Option Nat :=
  match findSub [a] s.reverse with
  | some r => some (s.length - 1 - r)
  | none => none

/-- Leftmost, greedy match of the regex `\x7b.*\x7d` with DOTALL
(fragrance_scout.py line 487): at the first opening brace that has some
closing brace after it, the greedy `.*` extends to the last closing
brace of the whole remaining text. -/
def searchBraceAux : List Char → Option (List Char)
  | [] => none
  | c :: t =>
    if c == '\x7b' then
      match lastIdxOfChar '\x7d' t with
      | some j => some ('\x7b' :: t.take (j + 1))
      | none => searchBraceAux t
    else searchBraceAux t

/-- The JSON-extraction stage (lines 487-489): replace the message with
the regex match when one exists, keep it unchanged otherwise. -/
def extractBrace (m : List Char) : List Char :=
  match searchBraceAux m with
  | some r => r
  | none => m

/-! ### A model of `json.loads` -/

/-- JSON inter-token whitespace. -/
def jSkipWs (s : List Char) : List Char :=
  s.dropWhile (fun c => c == ' ' || c == '\t' || c == '\n' || c == '\r')

/-- Append an element at the end of a JSON array. -/
def JsonArr.push : JsonArr → Json → JsonArr
  | .nil, v => .cons v .nil
  | .cons hd tl, v => .cons hd (tl.push v)

/-- Hex digit value, if the character is one. -/
def hexVal (c : Char) : Option Nat :=
  if '0' ≤ c ∧ c ≤ '9' then some (c.toNat - '0'.toNat)
  else if 'a' ≤ c ∧ c ≤ 'f' then some (c.toNat - 'a'.toNat + 10)
  else if 'A' ≤ c ∧ c ≤ 'F' then some (c.toNat - 'A'.toNat + 10)
  else none

/-- Parse the remainder of a JSON string literal (after the opening
quote).  Control characters are rejected as `json.loads` does; `\u`
escapes are decoded with `Char.ofNat` (lone surrogates are not
modelled). -/
def parseStringLit : Nat → List Char → Option (String × List Char)
  | 0, _ => none
  | _, [] => none
  | fuel + 1, c :: t =>
    if c == '"' then some ("", t)
    else if c == '\\' then
      match t with
      | [] => none
      | e :: t2 =>
        let dec : Option (Char × List Char) :=
          if e == '"' then some ('"', t2)
          else if e == '\\' then some ('\\', t2)
          else if e == '/' then some ('/', t2)
          else if e == 'b' then some ('\x08', t2)
          else if e == 'f' then some ('\x0c', t2)
          else if e == 'n' then some ('\n', t2)
          else if e == 'r' then some ('\r', t2)
          else if e == 't' then some ('\t', t2)
          else if e == 'u' then
            match t2 with
            | h1 :: h2 :: h3 :: h4 :: t3 =>
              match hexVal h1, hexVal h2, hexVal h3, hexVal h4 with
              | some a, some b, some c3, some d =>
                some (Char.ofNat (((a * 16 + b) * 16 + c3) * 16 + d), t3)
              | _, _, _, _ => none
            | _ => none
          else none
        match dec with
        | none => none
        | some (ch, t4) =>
          match parseStringLit fuel t4 with
          | some (rest, t5) => some (⟨ch :: rest.toList⟩, t5)
          | none => none
    else if c.toNat < 32 then none
    else
      match parseStringLit fuel t with
      | some (rest, t2) => some (⟨c :: rest.toList⟩, t2)
      | none => none

/-- Parse a JSON number per the JSON grammar, keeping its lexeme. -/
def parseNum (s : List Char) : Option (Json × List Char) :=
  let (sign, s1) :=
    match s with
    | '-' :: t => (['-'], t)
    | _ => (([] : List Char), s)
  let intPart : Option (List Char × List Char) :=
    match s1 with
    | '0' :: t => some (['0'], t)
    | c :: t =>
      if '1' ≤ c ∧ c ≤ '9' then
        some (c :: t.takeWhile (fun d : Char => d.isDigit), t.dropWhile (fun d : Char => d.isDigit))
      else none
    | [] => none
  match intPart with
  | none => none
  | some (ip, s2) =>
    let (fracPart, s3) : Option (List Char) × List Char :=
      match s2 with
      | '.' :: t =>
        let ds := t.takeWhile (fun d : Char => d.isDigit)
        if ds = [] then (none, s2) else (some ('.' :: ds), t.dropWhile (fun d : Char => d.isDigit))
      | _ => (none, s2)
    match fracPart, s2 with
    | none, '.' :: _ => none
    | _, _ =>
      let (expPart, s4) : Option (List Char) × List Char :=
        match s3 with
        | e :: t =>
          if e == 'e' || e == 'E' then
            let (sgn, t1) :=
              match t with
              | '+' :: t2 => (['+'], t2)
              | '-' :: t2 => (['-'], t2)
              | _ => (([] : List Char), t)
            let ds := t1.takeWhile (fun d : Char => d.isDigit)
            if ds = [] then (none, s3)
            else (some (e :: (sgn ++ ds)), t1.dropWhile (fun d : Char => d.isDigit))
          else (none, s3)
        | [] => (none, s3)
      match expPart, s3 with
      | none, e :: _ =>
        if e == 'e' || e == 'E' then none
        else some (Json.num ⟨sign ++ ip ++ (fracPart.getD []) ++ []⟩, s3)
      | none, [] => some (Json.num ⟨sign ++ ip ++ (fracPart.getD []) ++ []⟩, s3)
      | some ep, _ => some (Json.num ⟨sign ++ ip ++ (fracPart.getD []) ++ ep⟩, s4)

mutual

/-- Parse one JSON value (fuel-driven; along any call path at least one
input character is consumed per unit of fuel). -/
def parseVal : Nat → List Char → Option (Json × List Char)
  | 0, _ => none
  | fuel + 1, s =>
    let s1 := jSkipWs s
    if "true".toList.isPrefixOf s1 then some (.bool true, s1.drop 4)
    else if "false".toList.isPrefixOf s1 then some (.bool false, s1.drop 5)
    else if "null".toList.isPrefixOf s1 then some (.null, s1.drop 4)
    else
      match s1 with
      | '"' :: t =>
        match parseStringLit (t.length + 1) t with
        | some (lit, t2) => some (.str lit, t2)
        | none => none
      | '\x7b' :: t =>
        let t1 := jSkipWs t
        match t1 with
        | '\x7d' :: t2 => some (.obj .nil, t2)
        | _ => parseObjMembers fuel t .nil
      | '[' :: t =>
        let t1 := jSkipWs t
        match t1 with
        | ']' :: t2 => some (.arr .nil, t2)
        | _ => parseArrItems fuel t .nil
      | _ => parseNum s1

/-- Parse the members of a JSON object (after the opening brace, at
least one member present). -/
def parseObjMembers : Nat → List Char → JsonObj → Option (Json × List Char)
  | 0, _, _ => none
  | fuel + 1, s, acc =>
    match jSkipWs s with
    | '"' :: t =>
      match parseStringLit (t.length + 1) t with
      | none => none
      | some (key, t2) =>
        match jSkipWs t2 with
        | ':' :: t3 =>
          match parseVal fuel t3 with
          | none => none
          | some (v, t4) =>
            let acc2 := acc.set key v
            match jSkipWs t4 with
            | ',' :: t5 => parseObjMembers fuel t5 acc2
            | '\x7d' :: t5 => some (.obj acc2, t5)
            | _ => none
        | _ => none
    | _ => none

/-- Parse the items of a JSON array (after the opening bracket, at
least one item present). -/
def parseArrItems : Nat → List Char → JsonArr → Option (Json × List Char)
  | 0, _, _ => none
  | fuel + 1, s, acc =>
    match parseVal fuel s with
    | none => none
    | some (v, t) =>
      let acc2 := acc.push v
      match jSkipWs t with
      | ',' :: t2 => parseArrItems fuel t2 acc2
      | ']' :: t2 => some (.arr acc2, t2)
      | _ => none

end

/-- `json.loads`: parse a full document, requiring only whitespace after
the value. -/
def jsonParse (s : String) : Option Json :=
  match parseVal (2 * s.length + 8) s.toList with
  | some (v, rest) => if jSkipWs rest = [] then some v else none
  | none => none

/-! ### The local-backend sanitize-then-parse pipeline of `_query_llm` -/

/-- The sanitization applied to the raw local-model message content
(fragrance_scout.py lines 475-489): strip, remove reasoning sections and
strip, strip a leading markdown code fence (`none` models the IndexError
escape when the fence has no following newline), then extract the
greedy brace-delimited span. -/
def sanitizeLocal (content : String) : Option String :=
  let m0 := pyStrip content.data
  let m1 := pyStrip (removeThink m0)
  match fenceStage m1 with
  | none => none
  | some m2 => some ⟨extractBrace m2⟩

/-- The local branch of `_query_llm` from the raw message content
onward (lines 475-495): sanitize, fail on an empty remainder, parse;
every failure (including a JSONDecodeError) is caught by the
surrounding handler and becomes an absent verdict. -/
def queryLlmLocal (content : String) : Option Json :=
  match sanitizeLocal content with
  | none => none
  | some s => if s = "" then none else jsonParse s

/-- Modelled from the spec: "extract the first balanced JSON object
found in the remaining text" — from the first opening brace, take up to
the brace that balances it (depth counting; braces inside string
literals are not special-cased). -/
def specBalancedPrefix : Nat → List Char → Option (List Char)
  | _, [] => none
  | depth, c :: t =>
    if c == '\x7d' then
      if depth == 1 then some ['\x7d']
      else (specBalancedPrefix (depth - 1) t).map (fun r => c :: r)
    else if c == '\x7b' then (specBalancedPrefix (depth + 1) t).map (fun r => c :: r)
    else (specBalancedPrefix depth t).map (fun r => c :: r)

/-- Modelled from the spec: the first balanced JSON object of the text,
if any. -/
def specFirstBalancedObject (s : List Char) : Option (List Char) :=
  match findSub ['\x7b'] s with
  | none => none
  | some i =>
    match specBalancedPrefix 1 ((s.drop i).drop 1) with
    | some r => some ('\x7b' :: r)
    | none => none

/-! ### Feed fetching and flair filtering (`_fetch_reddit_json`) -/

/-- One `child.data` record of the Reddit listing.  String fields are
`none` when missing (`.get(..., "")` supplies the default); the flair is
`none` both when the key is missing and when its value is JSON null
(`post_data.get('link_flair_text', '') or ''` maps both to `""`).
`created_utc` is an epoch second; its human formatting is left to an
abstract `fmtTime` parameter. -/
structure RawChild where
  name : Option String
  title : Option String
  permalink : Option String
  author : Option String
  selftext : Option String
  link_flair_text : Option String
  subreddit : Option String
  subreddit_prefixed : Option String
  created_utc : Option Nat
deriving DecidableEq

/-- A parsed feed item, as built by `_fetch_reddit_json`. -/
structure Post where
  id : String
  title : String
  link : String
  author : String
  published : String
  summary : String
  flair : String
  subreddit : String
  subreddit_prefixed : String
deriving DecidableEq

/-- ASCII lowering, modelling `str.lower()` on the flair text (the
deny-list entries are ASCII). -/
def lowerStr (s : String) : String := ⟨s.toList.map Char.toLower⟩

/-- The fixed flair deny-list (fragrance_scout.py lines 332-338). -/
def skipFlairs : List String :=
  ["recommendation", "collection pics", "bottle identification", "mod post",
   "look what i found"]

/-- The flair of a child: missing and null both collapse to `""`. -/
def flairOf (c : RawChild) : String := c.link_flair_text.getD ""

/-- Python's `in` on strings: contiguous substring containment. -/
def strContains (s pat : String) : Bool :=
  (findSub pat.toList s.toList).isSome

/-- `any(skip_flair in flair.lower() for skip_flair in skip_flairs)`:
case-insensitive substring match against the deny-list. -/
def shouldSkipFlair (flair : String) : Bool :=
  skipFlairs.any (fun sk => strContains (lowerStr flair) sk)

/-- Build the post record from a child (lines 352-370). -/
def parseChild (fmtTime : Nat → String) (c : RawChild) : Post :=
  { id := c.name.getD ""
    title := c.title.getD ""
    link := "https://reddit.com" ++ c.permalink.getD ""
    author := c.author.getD ""
    published :=
      match c.created_utc with
      | some t => if t ≠ 0 then fmtTime t else "Unknown"
      | none => "Unknown"
    summary := c.selftext.getD ""
    flair := flairOf c
    subreddit := c.subreddit.getD ""
    subreddit_prefixed := c.subreddit_prefixed.getD "" }

/-- The per-feed loop body of `_fetch_reddit_json` (lines 340-374):
drop deny-listed children, parse the remainder in order. -/
def filterChildren (fmtTime : Nat → String) (children : List RawChild) : List Post :=
  (children.filter (fun c => !shouldSkipFlair (flairOf c))).map (parseChild fmtTime)

/-! ### Per-post processing (`_process_post`) -/

/-- The MLStripper applied to the post summary: keep the text outside
HTML tags (character-reference decoding is not modelled; no verified
claim depends on body text content). -/
def stripHtmlAux : Bool → List Char → List Char
  | _, [] => []
  | true, c :: t => if c == '>' then stripHtmlAux false t else stripHtmlAux true t
  | false, c :: t =>
    if c == '<' then stripHtmlAux true t else c :: stripHtmlAux false t

/-- Strip HTML markup from a post body. -/
def stripHtml (s : String) : String := ⟨stripHtmlAux false s.toList⟩

/-- One accepted item as stored in `found_posts` (lines 550-562). -/
structure FoundPost where
  timestamp : String
  title : String
  author : String
  link : String
  published : String
  reason : Json
  body : String
  subreddit : String
  subreddit_prefixed : String
  flair : String
  author_profile : Json
deriving DecidableEq

/-- The mutable state of the scout: the dedupe ledger `sent_posts` and
the result list `found_posts`. -/
structure ScoutState where
  sent : List (String × Json)
  found : List FoundPost
deriving DecidableEq

/-- Externally visible effects of processing one post, in program
order. -/
inductive Event where
  | queryLLM (id : String)
  | fetchProfile (author : String)
  | appendFound (id : String)
  | markProcessed (id : String)
  | persistTracking
  | persistFound
deriving DecidableEq

/-- Result of `_process_post`: the new state, the effect trace, whether
the post was added (the `True`/`False` return), and whether an uncaught
exception escaped to the caller (`run_once` catches it per post). -/
structure ProcOut where
  state : ScoutState
  trace : List Event
  added : Bool
  raised : Bool
deriving DecidableEq

/-- The accepted-item record built on the accept path (lines 550-562).
Both `datetime.now()` calls of the accept path are modelled by the
single per-post timestamp `now`. -/
def mkFoundEntry (profile : String → Option Json) (now : String) (p : Post)
    (fields : JsonObj) : FoundPost :=
  { timestamp := now
    title := p.title
    author := p.author
    link := p.link
    published := p.published
    reason := pyGet fields "reason" (.str "N/A")
    body := stripHtml p.summary
    subreddit := p.subreddit
    subreddit_prefixed := p.subreddit_prefixed
    flair := p.flair
    author_profile := (profile p.author).getD (.obj .nil) }

/-- `_process_post` (fragrance_scout.py lines 501-572).  `llm` is the
classifier oracle (`_query_llm`, returning the decoded JSON or `none`),
`profile` the user-profile oracle (`_fetch_user_profile`), `now` the
timestamp of this processing step.

Control flow: an identifier already in the ledger returns immediately;
an absent or falsy classifier result returns without mutation; a truthy
non-object raises (`.get` on a non-dict); an object with a falsy
`interesting` field returns without mutation; otherwise the accept path
appends to `found_posts`, marks the identifier in `sent_posts`, runs the
eviction-and-persist of `_save_tracking`, then `_save_found_posts`. -/
def processPost (llm : String → String → Option Json)
    (profile : String → Option Json) (now : String)
    (st : ScoutState) (p : Post) : ProcOut :=
  if st.sent.any (fun kv => kv.1 == p.id) then
    { state := st, trace := [], added := false, raised := false }
  else
    match llm p.title (stripHtml p.summary) with
    | none => { state := st, trace := [.queryLLM p.id], added := false, raised := false }
    | some j =>
      if pyTruthy j then
        match j with
        | .obj fields =>
          if pyTruthy (pyGet fields "interesting" (.bool false)) then
            { state := { sent := evictTracking (dictSet st.sent p.id (.str now))
                         found := st.found ++ [mkFoundEntry profile now p fields] }
              trace := [.queryLLM p.id, .fetchProfile p.author, .appendFound p.id,
                        .markProcessed p.id, .persistTracking, .persistFound]
              added := true, raised := false }
          else
            { state := st, trace := [.queryLLM p.id], added := false, raised := false }
        | _ =>
          { state := st, trace := [.queryLLM p.id], added := false, raised := true }
      else
        { state := st, trace := [.queryLLM p.id], added := false, raised := false }

/-- The per-feed post loop of `run_once` (lines 587-593): process each
post in order, catching any exception per post; `nows` gives the
timestamp of the i-th processing step (politeness sleeps are not
modelled). -/
def processPosts (llm : String → String → Option Json)
    (profile : String → Option Json) (nows : Nat → String) :
    ScoutState → List Post → Nat → ScoutState × List Event
  | st, [], _ => (st, [])
  | st, p :: ps, i =>
    let r := processPost llm profile (nows i) st p
    let (stF, trF) := processPosts llm profile nows r.state ps (i + 1)
    (stF, r.trace ++ trF)

/-- A sequence of `n` markProcessed-then-persist ledger operations
(`self.sent_posts[ids k] = str (ts k)` followed by `_save_tracking`),
starting from the empty ledger. -/
def runMarks (ids ts : Nat → String) : Nat → List (String × Json)
  | 0 => []
  | n + 1 => evictTracking (dictSet (runMarks ids ts n) (ids n) (.str (ts n)))

/-! ### Feed fetching with retry (`_fetch_reddit_json_with_retry`) -/

/-- One HTTP response from the feed endpoint.  `listing` is the decoded
`data.children` list, `none` when the body is not of the expected
structure. -/
structure HttpResponse where
  status : Nat
  retryAfter : Option Nat
  listing : Option (List RawChild)
deriving DecidableEq

/-- Outcome of one network attempt. -/
inductive AttemptOutcome where
  | resp (r : HttpResponse)
  | timeout
  | connError
deriving DecidableEq

/-- Visible effects of the fetch loop. -/
inductive FetchEvent where
  | attempt (k : Nat)
  | sleepRetryAfter (secs : Nat)
  | sleepBackoff (secs : Nat)
deriving DecidableEq

/-- How a fetch fails: an HTTP status error (`raise_for_status`), a
network timeout, or any other exception. -/
inductive FetchErr where
  | httpError (status : Nat)
  | timeoutErr
  | otherErr
deriving DecidableEq

/-- `wait_exponential(multiplier=1, min=4, max=60)`: the backoff before
the retry following the `k`-th attempt.  With at most 3 attempts only
the waits after attempts 1 and 2 occur, both equal to 4. -/
def waitExp (k : Nat) : Nat := min 60 (max 4 (2 ^ k))

/-- The body of `_fetch_reddit_json_with_retry` (lines 285-318) for the
`k`-th attempt: on status 429 sleep the `Retry-After` duration (default
60) and raise; `raise_for_status` raises exactly for the client- and
server-error range 400-599 and is a no-op for any other status;
otherwise return the response. -/
def fetchAttempt (oracle : Nat → AttemptOutcome) (k : Nat) :
    Except FetchErr HttpResponse × List FetchEvent :=
  match oracle k with
  | .timeout => (.error .timeoutErr, [.attempt k])
  | .connError => (.error .otherErr, [.attempt k])
  | .resp r =>
    if r.status == 429 then
      (.error (.httpError 429), [.attempt k, .sleepRetryAfter (r.retryAfter.getD 60)])
    else if 400 ≤ r.status ∧ r.status < 600 then
      (.error (.httpError r.status), [.attempt k])
    else (.ok r, [.attempt k])

/-- The tenacity retry loop:
`retry_if_exception_type(requests.exceptions.HTTPError)`,
`stop_after_attempt(3)`, `reraise=True`.  Only an `HTTPError` is
retried, with an exponential-backoff sleep between attempts; any other
exception propagates immediately; the final error is re-raised. -/
def retryLoop (oracle : Nat → AttemptOutcome) :
    Nat → Nat → Except FetchErr HttpResponse × List FetchEvent
  | 0, _ => (.error .otherErr, [])
  | fuel + 1, k =>
    let (res, tr) := fetchAttempt oracle k
    match res with
    | .ok r => (.ok r, tr)
    | .error e =>
      match e, fuel with
      | .httpError _, _ + 1 =>
        let (res2, tr2) := retryLoop oracle fuel (k + 1)
        (res2, tr ++ [.sleepBackoff (waitExp k)] ++ tr2)
      | _, _ => (.error e, tr)

/-- `_fetch_reddit_json_with_retry`: at most 3 attempts. -/
def fetchWithRetry (oracle : Nat → AttemptOutcome) :
    Except FetchErr HttpResponse × List FetchEvent :=
  retryLoop oracle 3 1

/-- `_fetch_reddit_json` (lines 320-384): run the retrying fetch; both
the `HTTPError` handler and the catch-all handler return the empty
list, so the caller never sees an exception; an unexpected JSON
structure also yields the empty list; otherwise filter and parse the
children. -/
def fetchRedditJson (oracle : Nat → AttemptOutcome) (fmtTime : Nat → String) :
    List Post × List FetchEvent :=
  match fetchWithRetry oracle with
  | (.error _, tr) => ([], tr)
  | (.ok r, tr) =>
    match r.listing with
    | none => ([], tr)
    | some children => (filterChildren fmtTime children, tr)

/-- Number of attempts recorded in a fetch trace. -/
def attemptsMade (tr : List FetchEvent) : Nat :=
  tr.countP (fun e => match e with | .attempt _ => true | _ => false)

/-! ### The scan trigger endpoint (`scan`, lines 999-1023) -/

/-- `request.headers.get('X-Auth-Token') or request.args.get('token')`:
Python `or` keeps the first operand when truthy (a nonempty string),
else yields the second operand unchanged. -/
def pyOrToken (header queryTok : Option String) : Option String :=
  match header with
  | some s => if s ≠ "" then some s else queryTok
  | none => queryTok

/-- What the `/scan` endpoint does and returns. -/
structure ScanResult where
  unauthorized : Bool
  warnedUnprotected : Bool
  launchedScan : Bool
  message : Option String
  postsFound : Option Nat
deriving DecidableEq

/-- The `/scan` handler: when no token is configured, warn and proceed;
when one is configured and the supplied token does not equal it, abort
with 401 (no scan is launched); otherwise start the asynchronous scan
thread and return the status object immediately. -/
def scanEndpoint (cfgToken : String) (header queryTok : Option String)
    (foundCount : Nat) : ScanResult :=
  let authToken := pyOrToken header queryTok
  if cfgToken = "" then
    { unauthorized := false, warnedUnprotected := true, launchedScan := true
      message := some "Scan started", postsFound := some foundCount }
  else if authToken ≠ some cfgToken then
    { unauthorized := true, warnedUnprotected := false, launchedScan := false
      message := none, postsFound := none }
  else
    { unauthorized := false, warnedUnprotected := false, launchedScan := true
      message := some "Scan started", postsFound := some foundCount }

/-! ### Concrete fixtures used in witnesses and counterexamples -/

/-- Fields of an accepting verdict. -/
def acceptFields : JsonObj :=
  .cons "interesting" (.bool true) (.cons "reason" (.str "detailed niche review") .nil)

/-- Fields of a rejecting verdict. -/
def rejectFields : JsonObj :=
  .cons "interesting" (.bool false) (.cons "reason" (.str "not a review") .nil)

/-- A classifier oracle that always accepts. -/
def llmAccept : String → String → Option Json := fun _ _ => some (.obj acceptFields)

/-- A classifier oracle that always rejects. -/
def llmReject : String → String → Option Json := fun _ _ => some (.obj rejectFields)

/-- A classifier oracle that always fails (absent verdict). -/
def llmAbsent : String → String → Option Json := fun _ _ => none

/-- A profile oracle whose fetch always fails. -/
def noProfile : String → Option Json := fun _ => none

/-- A sample feed item. -/
def samplePost : Post :=
  { id := "t3_x1", title := "Review of Papillon Anubis", link := "https://reddit.com/p/x1"
    author := "alice", published := "May 01, 2025", summary := "wonderful smoky resins"
    flair := "Review", subreddit := "nicheperfumes", subreddit_prefixed := "r/nicheperfumes" }

/-- The empty scout state. -/
def emptyState : ScoutState := { sent := [], found := [] }

/-- A trivial time formatter for fixtures. -/
def fmtTime0 : Nat → String := fun _ => "May 01, 2025"

/-- A trivial timestamp sequence for fixtures. -/
def nows0 : Nat → String := fun _ => "2025-05-01T00:00:00"

/-! ### Helper lemmas about `processPost` -/

/-- Every execution of `_process_post` either leaves the state unchanged
or takes the accept path, whose state effect is: append one entry built
from the post to `found_posts`, and replace `sent_posts` by the
evicted extension with the post's identifier. -/
theorem processPost_state_cases (llm : String → String → Option Json)
    (profile : String → Option Json) (now : String) (st : ScoutState) (p : Post) :
    (processPost llm profile now st p).state = st ∨
    ∃ fields, llm p.title (stripHtml p.summary) = some (.obj fields) ∧
      (processPost llm profile now st p).state =
        { sent := evictTracking (dictSet st.sent p.id (.str now))
          found := st.found ++ [mkFoundEntry profile now p fields] } := by
  unfold processPost
  by_cases hseen : st.sent.any (fun kv => kv.1 == p.id)
  · simp [hseen]
  · simp only [hseen, Bool.false_eq_true, if_false]
    cases hllm : llm p.title (stripHtml p.summary) with
    | none => simp
    | some j =>
      by_cases hj : pyTruthy j
      · cases j with
        | obj fields =>
          by_cases hint : pyTruthy (pyGet fields "interesting" (.bool false))
          · exact Or.inr ⟨fields, rfl, by simp [hj, hint]⟩
          · simp [hj, hint]
        | null => simp [hj]
        | bool b => simp [hj]
        | str s => simp [hj]
        | num l => simp [hj]
        | arr a => simp [hj]
      · simp [hj]

/-- Any classifier query recorded while processing a post carries that
post's identifier. -/
theorem processPost_trace_queryLLM (llm : String → String → Option Json)
    (profile : String → Option Json) (now : String) (st : ScoutState) (p : Post)
    (i : String) (h : Event.queryLLM i ∈ (processPost llm profile now st p).trace) :
    i = p.id := by
  unfold processPost at h
  by_cases hseen : st.sent.any (fun kv => kv.1 == p.id)
  · simp [hseen] at h
  · simp only [hseen, Bool.false_eq_true, if_false] at h
    cases hllm : llm p.title (stripHtml p.summary) with
    | none => rw [hllm] at h; simp at h; exact h
    | some j =>
      rw [hllm] at h
      by_cases hj : pyTruthy j
      · cases j with
        | obj fields =>
          by_cases hint : pyTruthy (pyGet fields "interesting" (.bool false))
          · simp [hj, hint] at h; exact h
          · simp [hj, hint] at h; exact h
        | null => simp [hj] at h; exact h
        | bool b => simp [hj] at h; exact h
        | str s => simp [hj] at h; exact h
        | num l => simp [hj] at h; exact h
        | arr a => simp [hj] at h; exact h
      · simp [hj] at h; exact h

/-- Keys of the evicted ledger come from the ledger. -/
theorem evictTracking_keys_subset (d : List (String × Json)) (k : String)
    (h : k ∈ (evictTracking d).map (fun kv => kv.1)) :
    k ∈ d.map (fun kv => kv.1) := by
  unfold evictTracking at h
  by_cases hlen : d.length > 1000
  · simp only [hlen, if_true] at h
    obtain ⟨e, he, rfl⟩ := List.mem_map.mp h
    exact List.mem_map_of_mem _ (List.mem_mergeSort.mp (List.mem_of_mem_drop he))
  · simpa [hlen] using h

/-- Keys after a dict assignment come from the dict or are the assigned
key. -/
theorem dictSet_keys_subset (d : List (String × Json)) (k v ka : String)
    (h : ka ∈ (dictSet d k (.str v)).map (fun kv => kv.1)) :
    ka ∈ d.map (fun kv => kv.1) ∨ ka = k := by
  unfold dictSet at h
  by_cases hmem : d.any (fun kv => kv.1 == k)
  · rw [if_pos hmem, List.map_map] at h
    obtain ⟨e, he, hek⟩ := List.mem_map.mp h
    by_cases hk : e.1 == k
    · right; simpa [Function.comp, hk] using hek.symm
    · left
      have hcomp : ((fun kv => kv.1) ∘
          fun kv => if (kv.1 == k) = true then (k, Json.str v) else kv) e = e.1 := by
        simp [Function.comp, hk]
      rw [← hek, hcomp]
      exact List.mem_map_of_mem _ he
  · rw [if_neg hmem, List.map_append] at h
    rcases List.mem_append.mp h with h1 | h2
    · exact Or.inl h1
    · right; simpa using h2

/-- Keys of the ledger after processing one post come from the previous
ledger or are the post's identifier. -/
theorem processPost_sent_keys (llm : String → String → Option Json)
    (profile : String → Option Json) (now : String) (st : ScoutState) (p : Post)
    (k : String)
    (h : k ∈ (processPost llm profile now st p).state.sent.map (fun kv => kv.1)) :
    k ∈ st.sent.map (fun kv => kv.1) ∨ k = p.id := by
  rcases processPost_state_cases llm profile now st p with hc | ⟨fields, _, hc⟩
  · rw [hc] at h; exact Or.inl h
  · rw [hc] at h
    exact dictSet_keys_subset _ _ _ _ (evictTracking_keys_subset _ _ h)

/-- Results present after processing one post were already present or
were built from that post. -/
theorem processPost_found_from (llm : String → String → Option Json)
    (profile : String → Option Json) (now : String) (st : ScoutState) (p : Post)
    (e : FoundPost) (h : e ∈ (processPost llm profile now st p).state.found) :
    e ∈ st.found ∨ (e.title = p.title ∧ e.link = p.link) := by
  rcases processPost_state_cases llm profile now st p with hc | ⟨fields, _, hc⟩
  · rw [hc] at h; exact Or.inl h
  · rw [hc] at h
    rcases List.mem_append.mp h with h1 | h2
    · exact Or.inl h1
    · right
      have he : e = mkFoundEntry profile now p fields := by simpa using h2
      subst he; exact ⟨rfl, rfl⟩

/-- Keys of the ledger after a processing loop come from the initial
ledger or are identifiers of the processed posts. -/
theorem processPosts_sent_keys (llm : String → String → Option Json)
    (profile : String → Option Json) (nows : Nat → String) (posts : List Post) :
    ∀ (st : ScoutState) (i : Nat) (k : String),
      k ∈ (processPosts llm profile nows st posts i).1.sent.map (fun kv => kv.1) →
      k ∈ st.sent.map (fun kv => kv.1) ∨ k ∈ posts.map (fun p => p.id) := by
  induction posts with
  | nil =>
    intro st i k h
    simp only [processPosts] at h
    exact Or.inl h
  | cons p ps ih =>
    intro st i k h
    simp only [processPosts] at h
    rcases ih _ (i + 1) k h with h1 | h2
    · rcases processPost_sent_keys llm profile (nows i) st p k h1 with ha | hb
      · exact Or.inl ha
      · right; simp [hb]
    · right; simp [h2]

/-- Results present after a processing loop were present initially or
were built from one of the processed posts. -/
theorem processPosts_found_from (llm : String → String → Option Json)
    (profile : String → Option Json) (nows : Nat → String) (posts : List Post) :
    ∀ (st : ScoutState) (i : Nat) (e : FoundPost),
      e ∈ (processPosts llm profile nows st posts i).1.found →
      e ∈ st.found ∨ ∃ p, p ∈ posts ∧ e.title = p.title ∧ e.link = p.link := by
  induction posts with
  | nil =>
    intro st i e h
    simp only [processPosts] at h
    exact Or.inl h
  | cons p ps ih =>
    intro st i e h
    simp only [processPosts] at h
    rcases ih _ (i + 1) e h with h1 | ⟨q, hq, hqe⟩
    · rcases processPost_found_from llm profile (nows i) st p e h1 with ha | hb
      · exact Or.inl ha
      · exact Or.inr ⟨p, List.mem_cons_self p ps, hb⟩
    · exact Or.inr ⟨q, List.mem_cons_of_mem p hq, hqe⟩

/-- Classifier queries recorded by a processing loop carry identifiers
of the processed posts. -/
theorem processPosts_trace_queryLLM (llm : String → String → Option Json)
    (profile : String → Option Json) (nows : Nat → String) (posts : List Post) :
    ∀ (st : ScoutState) (i : Nat) (s : String),
      Event.queryLLM s ∈ (processPosts llm profile nows st posts i).2 →
      s ∈ posts.map (fun p => p.id) := by
  induction posts with
  | nil => intro st i s h; simp [processPosts] at h
  | cons p ps ih =>
    intro st i s h
    simp only [processPosts] at h
    rcases List.mem_append.mp h with h1 | h2
    · simp [processPost_trace_queryLLM llm profile (nows i) st p s h1]
    · have := ih _ (i + 1) s h2
      simp only [List.map_cons, List.mem_cons]
      exact Or.inr (by simpa using this)

/-- The accept path of `_process_post`, fully computed: one entry is
appended to `found_posts`, then the identifier is marked, then the
ledger is evicted-and-persisted, then the result store is persisted. -/
theorem processPost_accept_eq (llm : String → String → Option Json)
    (profile : String → Option Json) (now : String) (st : ScoutState) (p : Post)
    (fields : JsonObj)
    (hfresh : st.sent.any (fun kv => kv.1 == p.id) = false)
    (hllm : llm p.title (stripHtml p.summary) = some (.obj fields))
    (hacc : pyTruthy (pyGet fields "interesting" (.bool false)) = true) :
    processPost llm profile now st p =
      { state := { sent := evictTracking (dictSet st.sent p.id (.str now))
                   found := st.found ++ [mkFoundEntry profile now p fields] }
        trace := [.queryLLM p.id, .fetchProfile p.author, .appendFound p.id,
                  .markProcessed p.id, .persistTracking, .persistFound]
        added := true, raised := false } := by
  have hne : fields ≠ .nil := by
    intro h; subst h; simp [pyGet, JsonObj.find?, pyTruthy] at hacc
  have hobj : pyTruthy (Json.obj fields) = true := by
    cases fields with
    | nil => exact absurd rfl hne
    | cons k v tl => rfl
  unfold processPost
  simp [hfresh, hllm, hobj, hacc]

/-- The reject path of `_process_post`, fully computed: the classifier
is queried and nothing else happens. -/
theorem processPost_reject_eq (llm : String → String → Option Json)
    (profile : String → Option Json) (now : String) (st : ScoutState) (p : Post)
    (fields : JsonObj)
    (hfresh : st.sent.any (fun kv => kv.1 == p.id) = false)
    (hllm : llm p.title (stripHtml p.summary) = some (.obj fields))
    (hrej : pyTruthy (pyGet fields "interesting" (.bool false)) = false) :
    processPost llm profile now st p =
      { state := st, trace := [.queryLLM p.id], added := false, raised := false } := by
  unfold processPost
  by_cases hj : pyTruthy (Json.obj fields) <;> simp [hfresh, hllm, hj, hrej]

/-- The dedupe short-circuit of `_process_post`, fully computed. -/
theorem processPost_seen_eq (llm : String → String → Option Json)
    (profile : String → Option Json) (now : String) (st : ScoutState) (p : Post)
    (hseen : st.sent.any (fun kv => kv.1 == p.id) = true) :
    processPost llm profile now st p =
      { state := st, trace := [], added := false, raised := false } := by
  unfold processPost
  simp [hseen]

/-- Assigning a fresh key appends the binding. -/
theorem dictSet_of_fresh (d : List (String × Json)) (k : String) (v : Json)
    (hfresh : d.any (fun kv => kv.1 == k) = false) :
    dictSet d k v = d ++ [(k, v)] := by
  unfold dictSet
  simp [hfresh]

/-- Persisting a ledger within the size bound does not evict. -/
theorem evictTracking_of_le (d : List (String × Json)) (h : d.length ≤ 1000) :
    evictTracking d = d := by
  unfold evictTracking
  have : ¬ d.length > 1000 := by omega
  simp [this]

/-! ### Claim theorems -/

/-- Claim C2: if the classifier returns a verdict whose `interesting`
field is falsy (in particular `accept = false`), processing the post
leaves both the dedupe ledger and the result store unchanged and the
post is not counted as added. -/
theorem c2_reject_leaves_state_unchanged (llm : String → String → Option Json)
    (profile : String → Option Json) (now : String) (st : ScoutState) (p : Post)
    (fields : JsonObj)
    (hllm : llm p.title (stripHtml p.summary) = some (.obj fields))
    (hrej : pyTruthy (pyGet fields "interesting" (.bool false)) = false) :
    (processPost llm profile now st p).state.sent = st.sent ∧
    (processPost llm profile now st p).state.found = st.found ∧
    (processPost llm profile now st p).added = false := by
  unfold processPost
  by_cases hseen : st.sent.any (fun kv => kv.1 == p.id)
  · simp [hseen]
  · simp only [hseen, Bool.false_eq_true, if_false, hllm]
    by_cases hj : pyTruthy (Json.obj fields) <;> simp [hj, hrej]

/-- Witness for C2 at a concrete rejecting classifier. -/
theorem c2_witness :
    (processPost llmReject noProfile "2025-05-01T00:00:00" emptyState samplePost).state.sent
      = emptyState.sent ∧
    (processPost llmReject noProfile "2025-05-01T00:00:00" emptyState samplePost).state.found
      = emptyState.found ∧
    (processPost llmReject noProfile "2025-05-01T00:00:00" emptyState samplePost).added
      = false := by
  have h := c2_reject_leaves_state_unchanged llmReject noProfile "2025-05-01T00:00:00"
    emptyState samplePost
    (.cons "interesting" (.bool false) (.cons "reason" (.str "not a review") .nil))
    (by decide) (by decide)
  exact h

/-- Claim C3: if the classifier call yields an absent verdict, the post
is neither appended to the result store nor marked in the dedupe
ledger, so it stays eligible for a future cycle. -/
theorem c3_absent_leaves_state_unchanged (llm : String → String → Option Json)
    (profile : String → Option Json) (now : String) (st : ScoutState) (p : Post)
    (hllm : llm p.title (stripHtml p.summary) = none) :
    (processPost llm profile now st p).state.sent = st.sent ∧
    (processPost llm profile now st p).state.found = st.found ∧
    (processPost llm profile now st p).added = false := by
  unfold processPost
  by_cases hseen : st.sent.any (fun kv => kv.1 == p.id)
  · simp [hseen]
  · simp [hseen, hllm]

/-- Witness for C3 at a concrete failing classifier. -/
theorem c3_witness :
    (processPost llmAbsent noProfile "2025-05-01T00:00:00" emptyState samplePost).state.sent
      = emptyState.sent ∧
    (processPost llmAbsent noProfile "2025-05-01T00:00:00" emptyState samplePost).state.found
      = emptyState.found ∧
    (processPost llmAbsent noProfile "2025-05-01T00:00:00" emptyState samplePost).added
      = false :=
  c3_absent_leaves_state_unchanged llmAbsent noProfile "2025-05-01T00:00:00" emptyState
    samplePost (by decide)

/-- Claim C9: the scan endpoint answers 401 exactly when a token is
configured and the supplied header-or-query token differs from it; with
no configured token it warns and proceeds; every authorized request
launches the asynchronous scan and immediately returns the status
message with the current result count. -/
theorem c9_scan_endpoint_auth (cfgToken : String) (header queryTok : Option String)
    (n : Nat) :
    ((scanEndpoint cfgToken header queryTok n).unauthorized = true ↔
      cfgToken ≠ "" ∧ pyOrToken header queryTok ≠ some cfgToken) ∧
    (cfgToken = "" → (scanEndpoint cfgToken header queryTok n).warnedUnprotected = true) ∧
    ((scanEndpoint cfgToken header queryTok n).unauthorized = false →
      (scanEndpoint cfgToken header queryTok n).launchedScan = true ∧
      (scanEndpoint cfgToken header queryTok n).message = some "Scan started" ∧
      (scanEndpoint cfgToken header queryTok n).postsFound = some n) ∧
    ((scanEndpoint cfgToken header queryTok n).unauthorized = true →
      (scanEndpoint cfgToken header queryTok n).launchedScan = false) := by
  unfold scanEndpoint
  by_cases hcfg : cfgToken = ""
  · simp [hcfg]
  · by_cases hauth : pyOrToken header queryTok ≠ some cfgToken
    · simp [hcfg, hauth]
    · simp [hcfg, hauth]

/-- Witness for C9: a configured token with a wrong supplied token is
rejected with 401 and launches nothing. -/
theorem c9_witness :
    ((scanEndpoint "secret" (some "wrong") none 5).unauthorized = true ↔
      "secret" ≠ "" ∧ pyOrToken (some "wrong") none ≠ some "secret") ∧
    ("secret" = "" → (scanEndpoint "secret" (some "wrong") none 5).warnedUnprotected = true) ∧
    ((scanEndpoint "secret" (some "wrong") none 5).unauthorized = false →
      (scanEndpoint "secret" (some "wrong") none 5).launchedScan = true ∧
      (scanEndpoint "secret" (some "wrong") none 5).message = some "Scan started" ∧
      (scanEndpoint "secret" (some "wrong") none 5).postsFound = some 5) ∧
    ((scanEndpoint "secret" (some "wrong") none 5).unauthorized = true →
      (scanEndpoint "secret" (some "wrong") none 5).launchedScan = false) :=
  c9_scan_endpoint_auth "secret" (some "wrong") none 5

/-- Claim C10: a fetched item with a missing or null category tag gets
the empty flair, is never dropped by the flair filter, and proceeds to
processing like any other item. -/
theorem c10_null_flair_not_dropped (fmtTime : Nat → String)
    (children : List RawChild) (c : RawChild)
    (hc : c ∈ children) (hflair : c.link_flair_text = none) :
    flairOf c = "" ∧
    shouldSkipFlair (flairOf c) = false ∧
    parseChild fmtTime c ∈ filterChildren fmtTime children ∧
    (parseChild fmtTime c).flair = "" := by
  have h1 : flairOf c = "" := by simp [flairOf, hflair]
  have h2 : shouldSkipFlair (flairOf c) = false := by rw [h1]; decide
  refine ⟨h1, h2, ?_, ?_⟩
  · exact List.mem_map_of_mem _ (List.mem_filter.mpr ⟨hc, by simp [h2]⟩)
  · simp [parseChild, h1]

/-- A concrete child without a flair field. -/
def childNoFlair : RawChild :=
  { name := some "t3_y", title := some "T", permalink := none, author := none
    selftext := none, link_flair_text := none, subreddit := none
    subreddit_prefixed := none, created_utc := none }

/-- Witness for C10 at a concrete child without flair. -/
theorem c10_witness :
    flairOf childNoFlair = "" ∧
    shouldSkipFlair (flairOf childNoFlair) = false ∧
    parseChild fmtTime0 childNoFlair ∈ filterChildren fmtTime0 [childNoFlair] ∧
    (parseChild fmtTime0 childNoFlair).flair = "" :=
  c10_null_flair_not_dropped fmtTime0 [childNoFlair] childNoFlair
    (List.mem_singleton.mpr rfl) rfl

/-- Claim C1 (amended): on the accept path the orchestrator appends the
result to the in-memory result store first, then marks the identifier
processed, then evicts-and-persists the dedupe ledger, and only then
persists the result store — the ledger is made durable before the
result store, not after it. -/
theorem c1_accept_path_effect_order (llm : String → String → Option Json)
    (profile : String → Option Json) (now : String) (st : ScoutState) (p : Post)
    (fields : JsonObj)
    (hfresh : st.sent.any (fun kv => kv.1 == p.id) = false)
    (hllm : llm p.title (stripHtml p.summary) = some (.obj fields))
    (hacc : pyTruthy (pyGet fields "interesting" (.bool false)) = true) :
    (processPost llm profile now st p).trace =
      [.queryLLM p.id, .fetchProfile p.author, .appendFound p.id,
       .markProcessed p.id, .persistTracking, .persistFound] ∧
    (processPost llm profile now st p).state.found
      = st.found ++ [mkFoundEntry profile now p fields] ∧
    (processPost llm profile now st p).state.sent
      = evictTracking (dictSet st.sent p.id (.str now)) := by
  rw [processPost_accept_eq llm profile now st p fields hfresh hllm hacc]
  exact ⟨rfl, rfl, rfl⟩

/-- Witness for the amended C1 at a concrete accepted post. -/
theorem c1_accept_path_effect_order_witness :
    (processPost llmAccept noProfile "2025-05-01T00:00:00" emptyState samplePost).trace =
      [.queryLLM samplePost.id, .fetchProfile samplePost.author,
       .appendFound samplePost.id, .markProcessed samplePost.id,
       .persistTracking, .persistFound] ∧
    (processPost llmAccept noProfile "2025-05-01T00:00:00" emptyState samplePost).state.found
      = emptyState.found
          ++ [mkFoundEntry noProfile "2025-05-01T00:00:00" samplePost acceptFields] ∧
    (processPost llmAccept noProfile "2025-05-01T00:00:00" emptyState samplePost).state.sent
      = evictTracking
          (dictSet emptyState.sent samplePost.id (.str "2025-05-01T00:00:00")) :=
  c1_accept_path_effect_order llmAccept noProfile "2025-05-01T00:00:00" emptyState
    samplePost acceptFields (by decide) (by decide) (by decide)

/-- Counterexample to C1 as stated: on a concrete accepted post the
trace marks the identifier and persists the ledger before the result
store is persisted, so the result-store persist does not precede the
ledger mark-and-persist. -/
theorem c1_counterexample :
    (processPost llmAccept noProfile "2025-05-01T00:00:00" emptyState samplePost).trace =
      [Event.queryLLM "t3_x1", Event.fetchProfile "alice", Event.appendFound "t3_x1",
       Event.markProcessed "t3_x1", Event.persistTracking, Event.persistFound] ∧
    ¬ ((processPost llmAccept noProfile "2025-05-01T00:00:00" emptyState
          samplePost).trace.indexOf Event.persistFound <
        (processPost llmAccept noProfile "2025-05-01T00:00:00" emptyState
          samplePost).trace.indexOf (Event.markProcessed "t3_x1")) ∧
    (processPost llmAccept noProfile "2025-05-01T00:00:00" emptyState
        samplePost).trace.indexOf Event.persistTracking <
      (processPost llmAccept noProfile "2025-05-01T00:00:00" emptyState
        samplePost).trace.indexOf Event.persistFound := by
  decide

/-- Reduction of the eviction step when the ledger exceeds the bound. -/
theorem evictTracking_gt (d : List (String × Json)) (hlen : d.length > 1000) :
    evictTracking d = (d.mergeSort (fun a b => sortKey a.2 ≤ sortKey b.2)).drop
      ((d.mergeSort (fun a b => sortKey a.2 ≤ sortKey b.2)).length - 1000) := by
  unfold evictTracking
  rw [if_pos hlen]

/-- The sort performed at persist time is ascending in the stored
timestamps. -/
theorem mergeSort_sortKey_pairwise (d : List (String × Json)) :
    (d.mergeSort (fun a b => sortKey a.2 ≤ sortKey b.2)).Pairwise
      (fun a b => decide (sortKey a.2 ≤ sortKey b.2) = true) := by
  apply List.sorted_mergeSort
  · intro a b c hab hbc
    simp only [decide_eq_true_eq] at *
    exact le_trans hab hbc
  · intro a b
    rcases le_total (sortKey a.2) (sortKey b.2) with h | h <;> simp [h]

/-- In a list sorted ascending by key, an element whose key is strictly
above every other element's survives any drop that leaves the list
nonempty. -/
theorem mem_drop_of_max {α : Type} (f : α → String) :
    ∀ (l : List α) (k : Nat), l.Pairwise (fun a b => decide (f a ≤ f b) = true) →
    ∀ e, e ∈ l → (∀ x ∈ l, x ≠ e → f x < f e) → k < l.length → e ∈ l.drop k := by
  intro l
  induction l with
  | nil => intro k _ e he; cases he
  | cons x t ih =>
    intro k hpw e he hmax hk
    cases k with
    | zero => simpa using he
    | succ k2 =>
      rw [List.drop_succ_cons]
      have hkt : k2 < t.length := by
        simp only [List.length_cons] at hk
        omega
      have hxle : ∀ b ∈ t, f x ≤ f b := fun b hb => by
        have := List.rel_of_pairwise_cons hpw hb
        simpa using this
      have het : e ∈ t := by
        rcases List.mem_cons.mp he with rfl | het
        · by_contra hnot
          obtain ⟨y, hy⟩ : ∃ y, y ∈ t := by
            cases t with
            | nil => simp at hkt
            | cons a b => exact ⟨a, List.mem_cons_self a b⟩
          have hyne : y ≠ e := fun hye => hnot (hye ▸ hy)
          have h1 := hxle y hy
          have h2 := hmax y (List.mem_cons_of_mem _ hy) hyne
          exact absurd h1 (not_le_of_lt h2)
        · exact het
      exact ih k2 hpw.of_cons e het
        (fun x2 hx2 hne => hmax x2 (List.mem_cons_of_mem _ hx2) hne) hkt

/-- An entry whose stored timestamp is strictly greater than every
other entry's survives the persist-time eviction. -/
theorem evictTracking_mem_of_max (d : List (String × Json)) (e : String × Json)
    (he : e ∈ d) (hmax : ∀ x ∈ d, x ≠ e → sortKey x.2 < sortKey e.2) :
    e ∈ evictTracking d := by
  by_cases hlen : d.length > 1000
  · rw [evictTracking_gt d hlen]
    apply mem_drop_of_max (fun kv => sortKey kv.2) _ _
      (mergeSort_sortKey_pairwise d) e (List.mem_mergeSort.mpr he)
      (fun x hx hne => hmax x (List.mem_mergeSort.mp hx) hne)
    rw [List.length_mergeSort]
    omega
  · rw [show evictTracking d = d by unfold evictTracking; rw [if_neg hlen]]
    exact he

/-- Claim C6 (amended): processing the same identifier twice in
sequence yields exactly one accepted item when the classifier accepts,
the second pass short-circuiting at the dedupe check with no classifier
call — the fresh mark carries a timestamp strictly greater than every
stored one (as the program's `datetime.now()` ISO timestamps do), so it
survives any eviction at persist time; when the classifier rejects,
zero items result, but the second pass does query the classifier
again, because rejected items are not marked processed. -/
theorem c6_idempotent_processing (llm : String → String → Option Json)
    (profile : String → Option Json) (now1 now2 : String) (st : ScoutState) (p : Post)
    (hfresh : st.sent.any (fun kv => kv.1 == p.id) = false) :
    (∀ fields, llm p.title (stripHtml p.summary) = some (.obj fields) →
      pyTruthy (pyGet fields "interesting" (.bool false)) = true →
      st.sent.all (fun kv => sortKey kv.2 < now1) = true →
      (processPost llm profile now1 st p).state.found
          = st.found ++ [mkFoundEntry profile now1 p fields] ∧
      (processPost llm profile now2 (processPost llm profile now1 st p).state p).state
          = (processPost llm profile now1 st p).state ∧
      (processPost llm profile now2 (processPost llm profile now1 st p).state p).trace
          = [] ∧
      (processPost llm profile now2 (processPost llm profile now1 st p).state p).added
          = false) ∧
    (∀ fields, llm p.title (stripHtml p.summary) = some (.obj fields) →
      pyTruthy (pyGet fields "interesting" (.bool false)) = false →
      (processPost llm profile now1 st p).state = st ∧
      (processPost llm profile now2 (processPost llm profile now1 st p).state p).state
          = st ∧
      Event.queryLLM p.id ∈
        (processPost llm profile now2 (processPost llm profile now1 st p).state p).trace ∧
      (processPost llm profile now1 st p).added = false ∧
      (processPost llm profile now2 (processPost llm profile now1 st p).state p).added
          = false) := by
  constructor
  · intro fields hllm hacc hnow
    rw [processPost_accept_eq llm profile now1 st p fields hfresh hllm hacc]
    have hmem : ((p.id, Json.str now1) : String × Json) ∈
        evictTracking (dictSet st.sent p.id (.str now1)) := by
      rw [dictSet_of_fresh st.sent p.id (.str now1) hfresh]
      apply evictTracking_mem_of_max
      · exact List.mem_append.mpr (Or.inr (List.mem_singleton.mpr rfl))
      · intro x hx hne
        rcases List.mem_append.mp hx with hxs | hxe
        · have := List.all_eq_true.mp hnow x hxs
          simpa using this
        · exact absurd (by simpa using hxe) hne
    have hseen : (evictTracking (dictSet st.sent p.id (.str now1))).any
        (fun kv => kv.1 == p.id) = true :=
      List.any_eq_true.mpr ⟨(p.id, .str now1), hmem, by simp⟩
    rw [processPost_seen_eq llm profile now2 _ p (by exact hseen)]
    exact ⟨rfl, rfl, rfl, rfl⟩
  · intro fields hllm hrej
    rw [processPost_reject_eq llm profile now1 st p fields hfresh hllm hrej]
    rw [processPost_reject_eq llm profile now2 st p fields hfresh hllm hrej]
    exact ⟨rfl, rfl, by simp, rfl, rfl⟩

/-- Witness for the amended C6: the accept case at a concrete post. -/
theorem c6_idempotent_processing_witness :
    (processPost llmAccept noProfile "n1" emptyState samplePost).state.found
        = emptyState.found ++ [mkFoundEntry noProfile "n1" samplePost acceptFields] ∧
    (processPost llmAccept noProfile "n2"
        (processPost llmAccept noProfile "n1" emptyState samplePost).state
        samplePost).state
      = (processPost llmAccept noProfile "n1" emptyState samplePost).state ∧
    (processPost llmAccept noProfile "n2"
        (processPost llmAccept noProfile "n1" emptyState samplePost).state
        samplePost).trace = [] ∧
    (processPost llmAccept noProfile "n2"
        (processPost llmAccept noProfile "n1" emptyState samplePost).state
        samplePost).added = false :=
  (c6_idempotent_processing llmAccept noProfile "n1" "n2" emptyState samplePost
    (by decide)).1 acceptFields (by decide) (by decide) (by decide)

/-- Counterexample to C6 as stated: after a concrete rejected post, the
second processing pass does not short-circuit — it queries the
classifier again (its trace is the classifier call, not empty). -/
theorem c6_counterexample :
    Event.queryLLM "t3_x1" ∈
      (processPost llmReject noProfile "n2"
        (processPost llmReject noProfile "n1" emptyState samplePost).state
        samplePost).trace ∧
    (processPost llmReject noProfile "n2"
        (processPost llmReject noProfile "n1" emptyState samplePost).state
        samplePost).trace ≠ [] := by
  decide

/-- Claim C5: a fetched item whose category tag case-insensitively
contains a deny-list entry is dropped before processing — it is not in
the filtered feed, the classifier is never queried for its identifier,
its identifier never enters the dedupe ledger, and every stored result
of the cycle comes from a child that passed the filter.  The
hypothesis `hall` says every fetched occurrence of this identifier is
deny-listed (trivially true when identifiers are distinct), `hsent`
that the identifier is not already in the ledger. -/
theorem c5_denylisted_flair_never_processed (fmtTime : Nat → String)
    (children : List RawChild) (c : RawChild)
    (llm : String → String → Option Json) (profile : String → Option Json)
    (nows : Nat → String) (st : ScoutState) (i : Nat)
    (hc : c ∈ children)
    (hskip : shouldSkipFlair (flairOf c) = true)
    (hall : ∀ c2, c2 ∈ children → (parseChild fmtTime c2).id = (parseChild fmtTime c).id →
      shouldSkipFlair (flairOf c2) = true)
    (hsent : (parseChild fmtTime c).id ∉ st.sent.map (fun kv => kv.1)) :
    parseChild fmtTime c ∉ filterChildren fmtTime children ∧
    Event.queryLLM (parseChild fmtTime c).id ∉
      (processPosts llm profile nows st (filterChildren fmtTime children) i).2 ∧
    (parseChild fmtTime c).id ∉
      (processPosts llm profile nows st (filterChildren fmtTime children) i).1.sent.map
        (fun kv => kv.1) ∧
    ∀ e ∈ (processPosts llm profile nows st (filterChildren fmtTime children) i).1.found,
      e ∈ st.found ∨ ∃ c2, c2 ∈ children ∧ shouldSkipFlair (flairOf c2) = false ∧
        e.title = (parseChild fmtTime c2).title ∧ e.link = (parseChild fmtTime c2).link := by
  have hid : (parseChild fmtTime c).id ∉
      (filterChildren fmtTime children).map (fun p => p.id) := by
    intro hmem
    obtain ⟨p, hp, hpe⟩ := List.mem_map.mp hmem
    obtain ⟨c2, hc2, hc2p⟩ := List.mem_map.mp hp
    have hc2f := List.mem_filter.mp hc2
    have hskip2 : shouldSkipFlair (flairOf c2) = true :=
      hall c2 hc2f.1 (by rw [hc2p, hpe])
    rw [hskip2] at hc2f
    exact absurd hc2f.2 (by decide)
  refine ⟨?_, ?_, ?_, ?_⟩
  · intro hmemP
    exact hid (List.mem_map_of_mem (fun p => p.id) hmemP)
  · intro htr
    exact hid (processPosts_trace_queryLLM llm profile nows _ st i _ htr)
  · intro hks
    rcases processPosts_sent_keys llm profile nows _ st i _ hks with h1 | h2
    · exact hsent h1
    · exact hid h2
  · intro e he
    rcases processPosts_found_from llm profile nows _ st i e he with h1 | ⟨p, hp, ht, hl⟩
    · exact Or.inl h1
    · obtain ⟨c2, hc2, hc2p⟩ := List.mem_map.mp hp
      have hc2f := List.mem_filter.mp hc2
      refine Or.inr ⟨c2, hc2f.1, ?_, by rw [← hc2p] at ht; exact ht,
        by rw [← hc2p] at hl; exact hl⟩
      cases hv : shouldSkipFlair (flairOf c2) with
      | false => rfl
      | true => rw [hv] at hc2f; exact absurd hc2f.2 (by decide)

/-- A concrete deny-listed child. -/
def childRecommendation : RawChild :=
  { name := some "t3_rec", title := some "what should I buy", permalink := some "/p/rec"
    author := some "bob", selftext := some "help me choose"
    link_flair_text := some "Recommendation", subreddit := some "perfumes"
    subreddit_prefixed := some "r/perfumes", created_utc := some 5 }

/-- Witness for C5 at a concrete deny-listed child. -/
theorem c5_witness :
    parseChild fmtTime0 childRecommendation
        ∉ filterChildren fmtTime0 [childRecommendation] ∧
    Event.queryLLM (parseChild fmtTime0 childRecommendation).id ∉
      (processPosts llmAccept noProfile nows0 emptyState
        (filterChildren fmtTime0 [childRecommendation]) 0).2 ∧
    (parseChild fmtTime0 childRecommendation).id ∉
      (processPosts llmAccept noProfile nows0 emptyState
        (filterChildren fmtTime0 [childRecommendation]) 0).1.sent.map
        (fun kv => kv.1) := by
  have h := c5_denylisted_flair_never_processed fmtTime0 [childRecommendation]
    childRecommendation llmAccept noProfile nows0 emptyState 0
    (List.mem_singleton.mpr rfl) (by decide)
    (fun c2 hc2 _ => by
      rw [List.mem_singleton.mp hc2]; decide)
    (by decide)
  exact ⟨h.1, h.2.1, h.2.2.1⟩

/-! ### Retry behaviour of the feed fetch (claim C8) -/

/-- Count of backoff sleeps in a fetch trace. -/
def backoffsMade (tr : List FetchEvent) : Nat :=
  tr.countP (fun e => match e with | .sleepBackoff _ => true | _ => false)

/-- An attempt that yields an HTTP status in the error range 400-599
produces an `HTTPError` and exactly one attempt event. -/
theorem fetchAttempt_http (oracle : Nat → AttemptOutcome) (k : Nat) (r : HttpResponse)
    (hk : oracle k = .resp r) (hs : 400 ≤ r.status) (hs6 : r.status < 600) :
    ∃ s tr, fetchAttempt oracle k = (.error (.httpError s), tr) ∧
      attemptsMade tr = 1 ∧ backoffsMade tr = 0 := by
  unfold fetchAttempt
  rw [hk]
  by_cases h429 : r.status == 429
  · refine ⟨429, [.attempt k, .sleepRetryAfter (r.retryAfter.getD 60)], by simp [h429],
      ?_, ?_⟩ <;> simp [attemptsMade, backoffsMade, List.countP_cons]
  · refine ⟨r.status, [.attempt k], by simp [h429, hs, hs6], ?_, ?_⟩ <;>
      simp [attemptsMade, backoffsMade, List.countP_cons]

/-- A retry step: an HTTP error with remaining budget sleeps the
backoff and retries. -/
theorem retryLoop_http_step (oracle : Nat → AttemptOutcome) (fuel k s : Nat)
    (tr : List FetchEvent)
    (h : fetchAttempt oracle k = (.error (.httpError s), tr)) :
    retryLoop oracle (fuel + 2) k =
      ((retryLoop oracle (fuel + 1) (k + 1)).1,
        tr ++ [.sleepBackoff (waitExp k)] ++ (retryLoop oracle (fuel + 1) (k + 1)).2) := by
  unfold retryLoop
  rw [h]
  rfl

/-- The last allowed attempt re-raises an HTTP error. -/
theorem retryLoop_http_last (oracle : Nat → AttemptOutcome) (k s : Nat)
    (tr : List FetchEvent)
    (h : fetchAttempt oracle k = (.error (.httpError s), tr)) :
    retryLoop oracle 1 k = (.error (.httpError s), tr) := by
  unfold retryLoop
  rw [h]

/-- A successful attempt returns immediately. -/
theorem retryLoop_ok (oracle : Nat → AttemptOutcome) (fuel k : Nat)
    (r : HttpResponse) (tr : List FetchEvent)
    (h : fetchAttempt oracle k = (.ok r, tr)) :
    retryLoop oracle (fuel + 1) k = (.ok r, tr) := by
  unfold retryLoop
  rw [h]

/-- A timeout is not an `HTTPError`, so tenacity re-raises it at once:
no retry happens regardless of the remaining budget. -/
theorem retryLoop_timeout (oracle : Nat → AttemptOutcome) (fuel k : Nat)
    (tr : List FetchEvent)
    (h : fetchAttempt oracle k = (.error .timeoutErr, tr)) :
    retryLoop oracle (fuel + 1) k = (.error .timeoutErr, tr) := by
  unfold retryLoop
  rw [h]

/-- The trace of `_fetch_reddit_json` is the trace of its retrying
fetch, whatever the outcome. -/
theorem fetchRedditJson_trace_eq (oracle : Nat → AttemptOutcome)
    (fmtTime : Nat → String) :
    (fetchRedditJson oracle fmtTime).2 = (fetchWithRetry oracle).2 := by
  unfold fetchRedditJson
  rcases hw : fetchWithRetry oracle with ⟨res, tr⟩
  cases res with
  | error e => rfl
  | ok rr =>
    cases hl : rr.listing with
    | none => simp [hl]
    | some ch => simp [hl]

/-- Claim C8 (amended): only HTTP status errors (a status in 400-599,
the range `raise_for_status` raises for) are retried, up to 3 attempts
with a backoff sleep between attempts; a network timeout is not
retried — the fetch makes a single attempt; a response whose status is
outside the error range is a success, parsed after a single attempt;
an explicit rate-limit response sleeps the source-provided
`Retry-After` duration; and in every failure mode the fetch returns
the empty list instead of raising. -/
theorem c8_fetch_retry_behaviour (oracle : Nat → AttemptOutcome)
    (fmtTime : Nat → String) :
    ((∀ k, ∃ r, oracle k = .resp r ∧ 400 ≤ r.status ∧ r.status < 600) →
      attemptsMade (fetchRedditJson oracle fmtTime).2 = 3 ∧
      backoffsMade (fetchRedditJson oracle fmtTime).2 = 2 ∧
      (fetchRedditJson oracle fmtTime).1 = []) ∧
    (oracle 1 = .timeout →
      attemptsMade (fetchRedditJson oracle fmtTime).2 = 1 ∧
      backoffsMade (fetchRedditJson oracle fmtTime).2 = 0 ∧
      (fetchRedditJson oracle fmtTime).1 = []) ∧
    (∀ r children, oracle 1 = .resp r → ¬(400 ≤ r.status ∧ r.status < 600) →
      r.listing = some children →
      (fetchRedditJson oracle fmtTime).1 = filterChildren fmtTime children ∧
      attemptsMade (fetchRedditJson oracle fmtTime).2 = 1) ∧
    (∀ r, oracle 1 = .resp r → r.status = 429 →
      FetchEvent.sleepRetryAfter (r.retryAfter.getD 60) ∈
        (fetchRedditJson oracle fmtTime).2) := by
  refine ⟨?_, ?_, ?_, ?_⟩
  · intro hhttp
    obtain ⟨r1, h1, hs1, hs1b⟩ := hhttp 1
    obtain ⟨r2, h2, hs2, hs2b⟩ := hhttp 2
    obtain ⟨r3, h3, hs3, hs3b⟩ := hhttp 3
    obtain ⟨s1, tr1, ha1, hc1, hb1⟩ := fetchAttempt_http oracle 1 r1 h1 hs1 hs1b
    obtain ⟨s2, tr2, ha2, hc2, hb2⟩ := fetchAttempt_http oracle 2 r2 h2 hs2 hs2b
    obtain ⟨s3, tr3, ha3, hc3, hb3⟩ := fetchAttempt_http oracle 3 r3 h3 hs3 hs3b
    have e1 : retryLoop oracle 1 3 = (.error (.httpError s3), tr3) :=
      retryLoop_http_last oracle 3 s3 tr3 ha3
    have e2 : retryLoop oracle 2 2 =
        (.error (.httpError s3), tr2 ++ [.sleepBackoff (waitExp 2)] ++ tr3) := by
      have := retryLoop_http_step oracle 0 2 s2 tr2 ha2
      rw [e1] at this
      exact this
    have e3 : retryLoop oracle 3 1 =
        (.error (.httpError s3),
          tr1 ++ [.sleepBackoff (waitExp 1)]
            ++ (tr2 ++ [.sleepBackoff (waitExp 2)] ++ tr3)) := by
      have := retryLoop_http_step oracle 1 1 s1 tr1 ha1
      rw [e2] at this
      exact this
    have efetch : fetchRedditJson oracle fmtTime =
        ([], tr1 ++ [.sleepBackoff (waitExp 1)]
          ++ (tr2 ++ [.sleepBackoff (waitExp 2)] ++ tr3)) := by
      unfold fetchRedditJson fetchWithRetry
      rw [e3]
    rw [efetch]
    unfold attemptsMade backoffsMade at *
    refine ⟨?_, ?_, rfl⟩ <;>
      simp [List.countP_append, List.countP_cons, hc1, hc2, hc3, hb1, hb2, hb3]
  · intro htimeout
    have ha : fetchAttempt oracle 1 = (.error .timeoutErr, [.attempt 1]) := by
      unfold fetchAttempt
      rw [htimeout]
    have e3 : retryLoop oracle 3 1 = (.error .timeoutErr, [.attempt 1]) :=
      retryLoop_timeout oracle 2 1 [.attempt 1] ha
    have efetch : fetchRedditJson oracle fmtTime = ([], [.attempt 1]) := by
      unfold fetchRedditJson fetchWithRetry
      rw [e3]
    rw [efetch]
    exact ⟨by simp [attemptsMade, List.countP_cons],
      by simp [backoffsMade, List.countP_cons], rfl⟩
  · intro r children h1 hok hlisting
    have h429 : (r.status == 429) = false := by
      simp only [beq_eq_false_iff_ne]
      intro h
      exact hok ⟨by omega, by omega⟩
    have ha : fetchAttempt oracle 1 = (.ok r, [.attempt 1]) := by
      unfold fetchAttempt
      rw [h1]
      simp [h429, hok]
    have e3 : retryLoop oracle 3 1 = (.ok r, [.attempt 1]) :=
      retryLoop_ok oracle 2 1 r [.attempt 1] ha
    have efetch : fetchRedditJson oracle fmtTime =
        (filterChildren fmtTime children, [.attempt 1]) := by
      unfold fetchRedditJson fetchWithRetry
      rw [e3]
      simp [hlisting]
    rw [efetch]
    exact ⟨rfl, by simp [attemptsMade, List.countP_cons]⟩
  · intro r h1 h429
    have ha1 : fetchAttempt oracle 1 =
        (.error (.httpError 429),
          [.attempt 1, .sleepRetryAfter (r.retryAfter.getD 60)]) := by
      unfold fetchAttempt
      rw [h1]
      simp [h429]
    have e3 : retryLoop oracle 3 1 =
        ((retryLoop oracle 2 2).1,
          [.attempt 1, .sleepRetryAfter (r.retryAfter.getD 60)]
            ++ [.sleepBackoff (waitExp 1)] ++ (retryLoop oracle 2 2).2) :=
      retryLoop_http_step oracle 1 1 429 _ ha1
    have hmem : FetchEvent.sleepRetryAfter (r.retryAfter.getD 60) ∈
        (fetchWithRetry oracle).2 := by
      unfold fetchWithRetry
      rw [e3]
      simp
    rw [fetchRedditJson_trace_eq oracle fmtTime]
    exact hmem

/-- A feed endpoint that always answers HTTP 500. -/
def oracle500 : Nat → AttemptOutcome :=
  fun _ => .resp { status := 500, retryAfter := none, listing := none }

/-- A feed endpoint that always times out. -/
def oracleTimeout : Nat → AttemptOutcome := fun _ => .timeout

/-- Witness for the amended C8: three attempts with two backoff sleeps
against a server answering 500, and a soft empty result. -/
theorem c8_fetch_retry_behaviour_witness :
    attemptsMade (fetchRedditJson oracle500 fmtTime0).2 = 3 ∧
    backoffsMade (fetchRedditJson oracle500 fmtTime0).2 = 2 ∧
    (fetchRedditJson oracle500 fmtTime0).1 = [] :=
  (c8_fetch_retry_behaviour oracle500 fmtTime0).1
    (fun k => ⟨{ status := 500, retryAfter := none, listing := none }, rfl,
      by decide, by decide⟩)

/-- Counterexample to C8 as stated: when every attempt is a network
timeout, the fetch makes exactly one attempt — it does not retry the
transient timeout up to 3 attempts (it still fails soft with an empty
list). -/
theorem c8_counterexample :
    attemptsMade (fetchRedditJson oracleTimeout fmtTime0).2 = 1 ∧
    ¬ attemptsMade (fetchRedditJson oracleTimeout fmtTime0).2 = 3 ∧
    (fetchRedditJson oracleTimeout fmtTime0).1 = [] := by
  decide

/-! ### Characterization of the brace-extraction stage (claim C7) -/

/-- Scanning for a single character past a prefix that lacks it finds
the first occurrence. -/
theorem findSub_single_append (a : Char) (pre rest : List Char) (hp : a ∉ pre) :
    findSub [a] (pre ++ a :: rest) = some pre.length := by
  induction pre with
  | nil => simp [findSub, List.isPrefixOf]
  | cons c t ih =>
    have hac : (a == c) = false := by
      simp only [beq_eq_false_iff_ne]
      exact fun h => hp (h ▸ List.mem_cons_self c t)
    have hat : a ∉ t := fun h => hp (List.mem_cons_of_mem c h)
    simp [findSub, List.isPrefixOf, hac, ih hat]

/-- The last occurrence of a character, when the text decomposes around
its final occurrence. -/
theorem lastIdxOfChar_append (a : Char) (mid post : List Char) (hpost : a ∉ post) :
    lastIdxOfChar a (mid ++ a :: post) = some mid.length := by
  unfold lastIdxOfChar
  have hrev : (mid ++ a :: post).reverse = post.reverse ++ a :: mid.reverse := by
    simp
  rw [hrev, findSub_single_append a post.reverse mid.reverse (by simpa using hpost)]
  simp [List.length_append]

/-- Taking one past a prefix keeps the prefix and the next element. -/
theorem take_len_succ_append (mid : List Char) (c : Char) (post : List Char) :
    (mid ++ c :: post).take (mid.length + 1) = mid ++ [c] := by
  induction mid with
  | nil => rfl
  | cons x t ih => simp [List.take_succ_cons, ih]

/-- One scanning step of the regex search at an opening brace. -/
theorem searchBraceAux_cons_open (t : List Char) :
    searchBraceAux ('\x7b' :: t) =
      match lastIdxOfChar '\x7d' t with
      | some j => some ('\x7b' :: t.take (j + 1))
      | none => searchBraceAux t := by
  rfl

/-- One scanning step of the regex search at a non-brace character. -/
theorem searchBraceAux_cons_ne (c : Char) (t : List Char)
    (hc : (c == '\x7b') = false) :
    searchBraceAux (c :: t) = searchBraceAux t := by
  show (if (c == '\x7b') = true then
      match lastIdxOfChar '\x7d' t with
      | some j => some ('\x7b' :: t.take (j + 1))
      | none => searchBraceAux t
    else searchBraceAux t) = searchBraceAux t
  rw [hc]
  simp

/-- The greedy regex match runs from the first opening brace to the
last closing brace. -/
theorem searchBrace_spec (pre mid post : List Char)
    (hpre : '\x7b' ∉ pre) (hpost : '\x7d' ∉ post) :
    searchBraceAux (pre ++ '\x7b' :: mid ++ '\x7d' :: post)
      = some ('\x7b' :: mid ++ ['\x7d']) := by
  induction pre with
  | nil =>
    rw [List.nil_append, List.cons_append '\x7b' mid ('\x7d' :: post),
      searchBraceAux_cons_open, lastIdxOfChar_append '\x7d' mid post hpost]
    show some ('\x7b' :: List.take (mid.length + 1) (mid ++ '\x7d' :: post)) = _
    rw [take_len_succ_append]
    simp
  | cons c t ih =>
    have hcb : (c == '\x7b') = false := by
      simp only [beq_eq_false_iff_ne]
      exact fun h => hpre (h ▸ List.mem_cons_self c t)
    have hbt : '\x7b' ∉ t := fun h => hpre (List.mem_cons_of_mem c h)
    show searchBraceAux (c :: (t ++ '\x7b' :: mid ++ '\x7d' :: post))
        = some ('\x7b' :: mid ++ ['\x7d'])
    rw [searchBraceAux_cons_ne c _ hcb]
    exact ih hbt

/-- Claim C7 (amended): the local-backend sanitization strips reasoning
sections, then code fences, then extracts the span from the first
opening brace to the last closing brace of the remaining text (the
greedy regex match — not the first balanced JSON object); whenever the
sanitized remainder is not valid JSON (or is empty, or the fence stage
fails), the call returns an absent verdict. -/
theorem c7_sanitize_pipeline :
    (∀ content : String, sanitizeLocal content =
      (fenceStage (pyStrip (removeThink (pyStrip content.data)))).map
        (fun m => (⟨extractBrace m⟩ : String))) ∧
    (∀ pre mid post, '\x7b' ∉ pre → '\x7d' ∉ post →
      extractBrace (pre ++ '\x7b' :: mid ++ '\x7d' :: post)
        = '\x7b' :: mid ++ ['\x7d']) ∧
    (∀ content s, sanitizeLocal content = some s → jsonParse s = none →
      queryLlmLocal content = none) ∧
    (∀ content, sanitizeLocal content = none → queryLlmLocal content = none) := by
  refine ⟨?_, ?_, ?_, ?_⟩
  · intro content
    unfold sanitizeLocal
    cases h : fenceStage (pyStrip (removeThink (pyStrip content.data))) <;> simp [h]
  · intro pre mid post hpre hpost
    unfold extractBrace
    rw [searchBrace_spec pre mid post hpre hpost]
  · intro content s hs hparse
    unfold queryLlmLocal
    rw [hs]
    by_cases he : s = "" <;> simp [he, hparse]
  · intro content hs
    unfold queryLlmLocal
    rw [hs]


/-- Witness for the amended C7 at concrete inputs. -/
theorem c7_sanitize_pipeline_witness :
    (sanitizeLocal "x" =
      (fenceStage (pyStrip (removeThink (pyStrip "x".data)))).map
        (fun m => (⟨extractBrace m⟩ : String))) ∧
    extractBrace (['a'] ++ '\x7b' :: ['b'] ++ '\x7d' :: ['c'])
      = '\x7b' :: ['b'] ++ ['\x7d'] ∧
    queryLlmLocal "x" = none :=
  ⟨c7_sanitize_pipeline.1 "x",
   c7_sanitize_pipeline.2.1 ['a'] ['b'] ['c'] (by decide) (by decide),
   c7_sanitize_pipeline.2.2.1 "x" "x" (by decide) (by decide)⟩

/-- A local-model reply holding two separate JSON objects. -/
def twoObjectsReply : String :=
  "\x7b\"interesting\": true\x7d \x7b\"reason\": \"why\"\x7d"

/-- Counterexample to C7 as stated: on a reply containing two JSON
objects, the code's greedy extraction spans both objects, the span is
not valid JSON, and the call returns an absent verdict — whereas the
first balanced JSON object of the same text is a valid accepting
verdict, so a pipeline extracting the first balanced object would not
return absent. -/
theorem c7_counterexample :
    queryLlmLocal twoObjectsReply = none ∧
    (specFirstBalancedObject twoObjectsReply.toList).map (fun l => jsonParse ⟨l⟩)
      = some (some (Json.obj (.cons "interesting" (.bool true) .nil))) := by
  decide

/-! ### Dedupe-ledger eviction (claim C4) -/

/-- A member not satisfying the predicate makes the count strictly
smaller than the length. -/
theorem countP_cons_false {α : Type} (p : α → Bool) (x : α) (t : List α)
    (hx : p x = false) : (x :: t).countP p = t.countP p := by
  rw [List.countP_cons, hx]
  simp

/-- A member not satisfying the predicate makes the count strictly
smaller than the length. -/
theorem countP_lt_length_of_mem {α : Type} {p : α → Bool} {a : α} {l : List α}
    (h : a ∈ l) (hpa : p a = false) : l.countP p < l.length := by
  induction l with
  | nil => cases h
  | cons x t ih =>
    rw [List.countP_cons]
    simp only [List.length_cons]
    rcases List.mem_cons.mp h with rfl | ht
    · have hle := List.countP_le_length (p := p) (l := t)
      rw [if_neg (by simp [hpa])]
      omega
    · have hlt := ih ht
      split <;> omega

/-- In a list strictly sorted by a key, the elements surviving `drop k`
are exactly those with fewer than `length - k` strictly greater keys. -/
theorem mem_drop_iff_of_pairwise {α : Type} (f : α → String) :
    ∀ (l : List α) (k : Nat), l.Pairwise (fun a b => f a < f b) →
    ∀ e, e ∈ l.drop k ↔
      e ∈ l ∧ l.countP (fun x => decide (f e < f x)) < l.length - k := by
  intro l
  induction l with
  | nil => intro k _ e; simp
  | cons x t ih =>
    intro k hpw e
    have hx : ∀ b ∈ t, f x < f b := fun b hb => List.rel_of_pairwise_cons hpw hb
    have hpt : t.Pairwise (fun a b => f a < f b) := hpw.of_cons
    cases k with
    | zero =>
      simp only [List.drop_zero, Nat.sub_zero]
      constructor
      · intro he
        refine ⟨he, ?_⟩
        exact countP_lt_length_of_mem he (by simp)
      · exact fun h => h.1
    | succ k' =>
      simp only [List.drop_succ_cons]
      constructor
      · intro he
        have het : e ∈ t := List.mem_of_mem_drop he
        have hxe : f x < f e := hx e het
        have hiff := (ih k' hpt e).mp he
        refine ⟨List.mem_cons_of_mem x hiff.1, ?_⟩
        rw [countP_cons_false _ _ _
          (by simp only [decide_eq_false_iff_not]
              exact fun hlt => absurd hxe (lt_asymm hlt))]
        have := hiff.2
        simp only [List.length_cons]
        omega
      · intro hand
        rcases List.mem_cons.mp hand.1 with rfl | het
        · exfalso
          have hcnt := hand.2
          have hcount : (e :: t).countP (fun y => decide (f e < f y)) = t.length := by
            rw [countP_cons_false _ _ _ (by simp)]
            exact List.countP_eq_length.mpr (fun b hb => by simp [hx b hb])
          rw [hcount] at hcnt
          simp only [List.length_cons] at hcnt
          omega
        · have hxe := hx e het
          have hcnt := hand.2
          rw [countP_cons_false _ _ _
            (by simp only [decide_eq_false_iff_not]
                exact fun hlt => absurd hxe (lt_asymm hlt))] at hcnt
          refine (ih k' hpt e).mpr ⟨het, ?_⟩
          simp only [List.length_cons] at hcnt
          omega

/-- Eviction keeps exactly the entries with fewer than 1000 strictly
more recent timestamps, provided the stored timestamps are pairwise
distinct. -/
theorem evictTracking_mem_iff (d : List (String × Json))
    (hnd : (d.map (fun kv => sortKey kv.2)).Nodup) (e : String × Json) :
    e ∈ evictTracking d ↔
      e ∈ d ∧ d.countP (fun x => decide (sortKey e.2 < sortKey x.2)) < 1000 := by
  by_cases hlen : d.length > 1000
  · rw [evictTracking_gt d hlen]
    have hperm : List.Perm (d.mergeSort (fun a b => sortKey a.2 ≤ sortKey b.2)) d :=
      List.mergeSort_perm d _
    have hsorted : (d.mergeSort (fun a b => sortKey a.2 ≤ sortKey b.2)).Pairwise
        (fun a b => decide (sortKey a.2 ≤ sortKey b.2) = true) := by
      apply List.sorted_mergeSort
      · intro a b c hab hbc
        simp only [decide_eq_true_eq] at *
        exact le_trans hab hbc
      · intro a b
        rcases le_total (sortKey a.2) (sortKey b.2) with h | h <;> simp [h]
    have hnd2 : ((d.mergeSort (fun a b => sortKey a.2 ≤ sortKey b.2)).map
        (fun kv => sortKey kv.2)).Nodup :=
      ((hperm.map (fun kv => sortKey kv.2)).nodup_iff).mpr hnd
    have hne : (d.mergeSort (fun a b => sortKey a.2 ≤ sortKey b.2)).Pairwise
        (fun a b => sortKey a.2 ≠ sortKey b.2) := List.pairwise_map.mp hnd2
    have hlt : (d.mergeSort (fun a b => sortKey a.2 ≤ sortKey b.2)).Pairwise
        (fun a b => sortKey a.2 < sortKey b.2) := by
      refine (hsorted.and hne).imp ?_
      intro a b hab
      exact lt_of_le_of_ne (by simpa using hab.1) hab.2
    rw [mem_drop_iff_of_pairwise (fun kv => sortKey kv.2) _ _ hlt e]
    rw [List.mem_mergeSort, hperm.countP_eq, List.length_mergeSort]
    have harith : d.length - (d.length - 1000) = 1000 := by omega
    rw [harith]
  · rw [show evictTracking d = d by unfold evictTracking; rw [if_neg hlen]]
    constructor
    · intro he
      refine ⟨he, ?_⟩
      have := countP_lt_length_of_mem he
        (p := fun x => decide (sortKey e.2 < sortKey x.2)) (by simp)
      omega
    · exact fun h => h.1

/-- The first `n ≤ 1000` markProcessed-then-persist steps build the
ledger without eviction, in insertion order. -/
theorem runMarks_eq_of_le (ids ts : Nat → String)
    (hids : ∀ i j, ids i = ids j → i = j) :
    ∀ n, n ≤ 1000 → runMarks ids ts n
      = (List.range n).map (fun i => (ids i, Json.str (ts i))) := by
  intro n
  induction n with
  | zero => intro _; rfl
  | succ m ih =>
    intro hn
    have hm : m ≤ 1000 := by omega
    show evictTracking (dictSet (runMarks ids ts m) (ids m) (.str (ts m))) = _
    rw [ih hm]
    have hfresh : ((List.range m).map (fun i => (ids i, Json.str (ts i)))).any
        (fun kv => kv.1 == ids m) = false := by
      rw [List.any_eq_false]
      intro kv hkv
      obtain ⟨i, hi, rfl⟩ := List.mem_map.mp hkv
      simp only [beq_iff_eq]
      intro he
      have := hids i m he
      rw [this] at hi
      exact absurd (List.mem_range.mp hi) (by omega)
    rw [dictSet_of_fresh _ _ _ hfresh]
    rw [evictTracking_of_le _ (by simp only [List.length_append, List.length_map,
      List.length_range, List.length_cons, List.length_nil]; omega)]
    rw [show List.range (m + 1) = List.range m ++ [m] from List.range_succ m,
      List.map_append]
    rfl

/-- After 1001 sequential markProcessed-then-persist steps with
strictly increasing timestamps, the ledger holds exactly steps 1
through 1000 — the 1000 most recent. -/
theorem runMarks_1001 (ids ts : Nat → String)
    (hts : ∀ i j, i < j → ts i < ts j)
    (hids : ∀ i j, ids i = ids j → i = j) :
    runMarks ids ts 1001
      = (List.range 1000).map (fun i => (ids (i + 1), Json.str (ts (i + 1)))) := by
  show evictTracking (dictSet (runMarks ids ts 1000) (ids 1000) (.str (ts 1000))) = _
  rw [runMarks_eq_of_le ids ts hids 1000 (le_refl 1000)]
  have hfresh : ((List.range 1000).map (fun i => (ids i, Json.str (ts i)))).any
      (fun kv => kv.1 == ids 1000) = false := by
    rw [List.any_eq_false]
    intro kv hkv
    obtain ⟨i, hi, rfl⟩ := List.mem_map.mp hkv
    simp only [beq_iff_eq]
    intro he
    have := hids i 1000 he
    rw [this] at hi
    exact absurd (List.mem_range.mp hi) (by omega)
  rw [dictSet_of_fresh _ _ _ hfresh]
  have hjoin : (List.range 1000).map (fun i => (ids i, Json.str (ts i)))
      ++ [(ids 1000, Json.str (ts 1000))]
      = (List.range 1001).map (fun i => (ids i, Json.str (ts i))) := by
    rw [show List.range 1001 = List.range 1000 ++ [1000] from List.range_succ 1000,
      List.map_append]
    rfl
  rw [hjoin]
  have hlen : ((List.range 1001).map (fun i => (ids i, Json.str (ts i)))).length
      = 1001 := by simp
  have hpw : ((List.range 1001).map (fun i => (ids i, Json.str (ts i)))).Pairwise
      (fun a b => decide (sortKey a.2 ≤ sortKey b.2) = true) := by
    rw [List.pairwise_map]
    refine (List.pairwise_lt_range 1001).imp ?_
    intro i j hij
    simp only [decide_eq_true_eq]
    exact le_of_lt (hts i j hij)
  rw [evictTracking_gt _ (by rw [hlen]; omega)]
  rw [List.mergeSort_of_sorted hpw, hlen]
  have hdrop : (1001 : Nat) - 1000 = 1 := by omega
  rw [hdrop]
  rw [show List.range 1001 = 0 :: (List.range 1000).map Nat.succ from
    List.range_succ_eq_map 1000]
  rw [List.map_cons, List.drop_one, List.tail_cons, List.map_map]
  rfl

/-- Claim C4: whenever a persist happens with more than 1000 ledger
entries (with pairwise distinct string timestamps), exactly the 1000
entries with the most recent timestamps survive — an entry is kept
exactly when fewer than 1000 entries have strictly greater timestamps;
in particular, after 1001 sequential markProcessed-then-persist steps
with increasing timestamps the ledger holds exactly 1000 entries, the
1000 most recent ones. -/
theorem c4_ledger_eviction (d : List (String × Json)) (ids ts : Nat → String)
    (e : String × Json)
    (hnd : (d.map (fun kv => sortKey kv.2)).Nodup)
    (hts : ∀ i j, i < j → ts i < ts j)
    (hids : ∀ i j, ids i = ids j → i = j) :
    (e ∈ evictTracking d ↔
      e ∈ d ∧ d.countP (fun x => decide (sortKey e.2 < sortKey x.2)) < 1000) ∧
    runMarks ids ts 1001
      = (List.range 1000).map (fun i => (ids (i + 1), Json.str (ts (i + 1)))) ∧
    (runMarks ids ts 1001).length = 1000 :=
  ⟨evictTracking_mem_iff d hnd e, runMarks_1001 ids ts hts hids,
    by rw [runMarks_1001 ids ts hts hids]; simp⟩

/-- Strictly increasing timestamp strings for the C4 witness. -/
def tsA (i : Nat) : String := ⟨List.replicate i 'a'⟩

/-- Longer replications of a character are lexicographically greater. -/
theorem replicate_lex (c : Char) :
    ∀ i j, i < j → List.Lex (· < ·) (List.replicate i c) (List.replicate j c) := by
  intro i
  induction i with
  | zero =>
    intro j hj
    cases j with
    | zero => omega
    | succ j' =>
      rw [List.replicate_succ]
      exact List.Lex.nil
  | succ i' ih =>
    intro j hj
    cases j with
    | zero => omega
    | succ j' =>
      rw [List.replicate_succ, List.replicate_succ]
      exact List.Lex.cons (ih j' (by omega))

/-- The witness timestamps are strictly increasing. -/
theorem tsA_lt (i j : Nat) (h : i < j) : tsA i < tsA j := by
  rw [String.lt_iff_toList_lt]
  show List.replicate i 'a' < List.replicate j 'a'
  exact replicate_lex 'a' i j h

/-- The witness timestamps are injective. -/
theorem tsA_inj (i j : Nat) (h : tsA i = tsA j) : i = j := by
  by_contra hne
  rcases Nat.lt_or_ge i j with hlt | hge
  · exact absurd h (ne_of_lt (tsA_lt i j hlt))
  · have hj : j < i := by omega
    exact absurd h.symm (ne_of_lt (tsA_lt j i hj))

/-- Witness for C4 at a concrete two-entry ledger and the concrete
increasing-timestamp sequence. -/
theorem c4_ledger_eviction_witness :
    ((("a", Json.str "1") : String × Json)
        ∈ evictTracking [("a", Json.str "1"), ("b", Json.str "2")] ↔
      (("a", Json.str "1") : String × Json)
          ∈ [("a", Json.str "1"), ("b", Json.str "2")] ∧
        [("a", Json.str "1"), ("b", Json.str "2")].countP
          (fun x => decide (sortKey (("a", Json.str "1") : String × Json).2
            < sortKey x.2)) < 1000) ∧
    runMarks tsA tsA 1001
      = (List.range 1000).map (fun i => (tsA (i + 1), Json.str (tsA (i + 1)))) ∧
    (runMarks tsA tsA 1001).length = 1000 :=
  c4_ledger_eviction [("a", Json.str "1"), ("b", Json.str "2")] tsA tsA
    ("a", Json.str "1") (by decide) tsA_lt tsA_inj

end FragranceScout
